import Mathlib

set_option maxRecDepth 8000

namespace RadixTrie

/-- Radix trie node, embedding the Python class RTNode: a key flag and an ordered
dictionary from string keys to edges. An edge (Python RTEdge) is a destination node
together with a label. Python strings are embedded as lists of characters; the dict
is embedded as an insertion-ordered association list with string keys, because the
code indexes it both with one-character strings and (in search) with whole prefixes. -/
inductive RTNode : Type where
  | mk : Bool → List (List Char × RTNode × List Char) → RTNode

/-- Edge of the radix trie, as in the Python RTEdge dataclass: destination and label. -/
abbrev RTEdge : Type := RTNode × List Char

def RTNode.key_node : RTNode → Bool
  | .mk b _ => b

def RTNode.children : RTNode → List (List Char × RTEdge)
  | .mk _ l => l

def RTEdge.destination (e : RTEdge) : RTNode := e.1

def RTEdge.label (e : RTEdge) : List Char := e.2

@[simp] theorem key_node_mk (b : Bool) (l : List (List Char × RTEdge)) :
    (RTNode.mk b l).key_node = b := rfl

@[simp] theorem children_mk (b : Bool) (l : List (List Char × RTEdge)) :
    (RTNode.mk b l).children = l := rfl

theorem RTNode.eta (n : RTNode) : RTNode.mk n.key_node n.children = n := by
  cases n
  rfl

@[simp] theorem destination_mk (d : RTNode) (l : List Char) :
    RTEdge.destination (d, l) = d := rfl

@[simp] theorem label_mk (d : RTNode) (l : List Char) :
    RTEdge.label (d, l) = l := rfl

/-- Runtime errors of the Python code that the embedding makes explicit:
an out-of-range string index and a missing dictionary key. -/
inductive Err : Type where
  | indexError : Err
  | keyError : Err
deriving DecidableEq

/-- Python dict lookup d[k], as an option. -/
def dictGet (k : List Char) : List (List Char × RTEdge) → Option RTEdge
  | [] => none
  | (k', e) :: rest => if k = k' then some e else dictGet k rest

/-- Python dict assignment d[k] = v: update in place if the key exists (keeping its
position, as Python dicts do), otherwise append at the end. -/
def dictSet (k : List Char) (v : RTEdge) : List (List Char × RTEdge) → List (List Char × RTEdge)
  | [] => [(k, v)]
  | (k', e) :: rest => if k = k' then (k, v) :: rest else (k', e) :: dictSet k v rest

/-- Python dict d.pop(k): remove the entry with key k. -/
def dictPop (k : List Char) : List (List Char × RTEdge) → List (List Char × RTEdge)
  | [] => []
  | (k', e) :: rest => if k = k' then rest else (k', e) :: dictPop k rest

@[simp] theorem dictGet_nil (k : List Char) : dictGet k [] = none := rfl

@[simp] theorem dictGet_cons (k k' : List Char) (e : RTEdge) (rest : List (List Char × RTEdge)) :
    dictGet k ((k', e) :: rest) = if k = k' then some e else dictGet k rest := rfl

@[simp] theorem dictSet_nil (k : List Char) (v : RTEdge) : dictSet k v [] = [(k, v)] := rfl

@[simp] theorem dictSet_cons (k k' : List Char) (v e : RTEdge)
    (rest : List (List Char × RTEdge)) :
    dictSet k v ((k', e) :: rest) =
      if k = k' then (k, v) :: rest else (k', e) :: dictSet k v rest := rfl

@[simp] theorem dictPop_cons (k k' : List Char) (e : RTEdge) (rest : List (List Char × RTEdge)) :
    dictPop k ((k', e) :: rest) = if k = k' then rest else (k', e) :: dictPop k rest := rfl

theorem dictGet_dictSet_self (k : List Char) (v : RTEdge) (l : List (List Char × RTEdge)) :
    dictGet k (dictSet k v l) = some v := by
  induction l with
  | nil => simp
  | cons p rest ih =>
    obtain ⟨k', e⟩ := p
    by_cases h : k = k' <;> simp [h, ih]

theorem dictSet_dictSet (k : List Char) (v v' : RTEdge) (l : List (List Char × RTEdge)) :
    dictSet k v' (dictSet k v l) = dictSet k v' l := by
  induction l with
  | nil => simp
  | cons p rest ih =>
    obtain ⟨k', e⟩ := p
    by_cases h : k = k' <;> simp [h, ih]

theorem dictSet_dictGet_self (k : List Char) (v : RTEdge) (l : List (List Char × RTEdge))
    (h : dictGet k l = some v) : dictSet k v l = l := by
  induction l with
  | nil => simp [dictGet] at h
  | cons p rest ih =>
    obtain ⟨k', e⟩ := p
    by_cases hk : k = k'
    · simp [hk] at h ⊢
      exact h.symm
    · simp [hk] at h ⊢
      exact ih h

theorem dictGet_mem (k : List Char) (e : RTEdge) (l : List (List Char × RTEdge))
    (h : dictGet k l = some e) : (k, e) ∈ l := by
  induction l with
  | nil => simp [dictGet] at h
  | cons p rest ih =>
    obtain ⟨k', e'⟩ := p
    by_cases hk : k = k'
    · simp [hk] at h
      subst hk
      subst h
      exact List.mem_cons_self _ _
    · simp [hk] at h
      exact List.mem_cons_of_mem _ (ih h)

theorem sizeOf_dest_lt (k : List Char) (e : RTEdge) (b : Bool)
    (l : List (List Char × RTEdge)) (h : dictGet k l = some e) :
    sizeOf e.1 < sizeOf (RTNode.mk b l) := by
  have hmem := dictGet_mem k e l h
  have h1 : sizeOf (k, e) < sizeOf l := List.sizeOf_lt_of_mem hmem
  have h2 : sizeOf e.1 < sizeOf (k, e) := by
    obtain ⟨d, lab⟩ := e
    simp only [Prod.mk.sizeOf_spec]
    omega
  have h3 : sizeOf l < sizeOf (RTNode.mk b l) := by
    simp only [RTNode.mk.sizeOf_spec]
    omega
  omega

/-- Convenience: size bound stated through the children accessor. -/
theorem sizeOf_dest_lt' (k : List Char) (e : RTEdge) (node : RTNode)
    (h : dictGet k node.children = some e) : sizeOf e.1 < sizeOf node := by
  cases node with
  | mk b l => exact sizeOf_dest_lt k e b l h

/-- Python RadixTrie._longestCommonPrefix: scan until a mismatch or either string
is exhausted; return the common part and the two remainders. -/
def longestCommonPref : List Char → List Char → List Char × List Char × List Char
  | [], ys => ([], [], ys)
  | x :: xs, [] => ([], x :: xs, [])
  | x :: xs, y :: ys =>
    if x = y then
      let r := longestCommonPref xs ys
      (x :: r.1, r.2.1, r.2.2)
    else ([], x :: xs, y :: ys)

@[simp] theorem lcp_nil_left (ys : List Char) : longestCommonPref [] ys = ([], [], ys) := rfl

@[simp] theorem lcp_nil_right (x : Char) (xs : List Char) :
    longestCommonPref (x :: xs) [] = ([], x :: xs, []) := rfl

@[simp] theorem lcp_cons_cons (x y : Char) (xs ys : List Char) :
    longestCommonPref (x :: xs) (y :: ys) =
      if x = y then
        ((x :: (longestCommonPref xs ys).1, (longestCommonPref xs ys).2.1,
          (longestCommonPref xs ys).2.2))
      else ([], x :: xs, y :: ys) := rfl

theorem lcp_self (w : List Char) : longestCommonPref w w = (w, [], []) := by
  induction w with
  | nil => rfl
  | cons c cs ih => simp [ih]

theorem lcp_append_left (p ws : List Char) : longestCommonPref (p ++ ws) p = (p, ws, []) := by
  induction p with
  | nil => cases ws <;> rfl
  | cons c cs ih => simp [ih]

theorem lcp_decomp (w l : List Char) :
    w = (longestCommonPref w l).1 ++ (longestCommonPref w l).2.1 ∧
    l = (longestCommonPref w l).1 ++ (longestCommonPref w l).2.2 := by
  induction w generalizing l with
  | nil => simp
  | cons c cs ih =>
    cases l with
    | nil => simp
    | cons d ds =>
      by_cases h : c = d
      · obtain ⟨h1, h2⟩ := ih ds
        subst h
        constructor
        · simpa using h1
        · simpa using h2
      · simp [h]

theorem lcp_ws_length_le (w l : List Char) :
    (longestCommonPref w l).2.1.length ≤ w.length := by
  have h := (lcp_decomp w l).1
  have := congrArg List.length h
  simp at this
  omega

theorem lcp_ws_length_lt (w l : List Char) (h : (longestCommonPref w l).1 ≠ []) :
    (longestCommonPref w l).2.1.length < w.length := by
  have hd := (lcp_decomp w l).1
  have hl := congrArg List.length hd
  simp at hl
  have : (longestCommonPref w l).1.length ≠ 0 := by
    simpa [List.length_eq_zero] using h
  omega

theorem lcp_cp_nil (w l : List Char) (h : (longestCommonPref w l).1 = []) :
    (longestCommonPref w l).2.1 = w ∧ (longestCommonPref w l).2.2 = l := by
  obtain ⟨h1, h2⟩ := lcp_decomp w l
  rw [h] at h1 h2
  simp at h1 h2
  exact ⟨h1.symm, h2.symm⟩

theorem lcp_cp_nil_head_ne (c d : Char) (cs ds : List Char)
    (h : (longestCommonPref (c :: cs) (d :: ds)).1 = []) : c ≠ d := by
  intro hcd
  subst hcd
  simp at h

/-- Python RadixTrie._matchEdge: read word[0] (an IndexError if word is empty), look
up the one-character key in the children dict, and on a hit split word and edge label
around their longest common prefix. -/
def matchEdge (node : RTNode) (word : List Char) :
    Except Err (Option RTEdge × List Char × List Char × List Char) :=
  match word with
  | [] => .error .indexError
  | c :: _ =>
    match dictGet [c] node.children with
    | none => .ok (none, [], word, [])
    | some edge =>
      let r := longestCommonPref word edge.label
      .ok (some edge, r.1, r.2.1, r.2.2)

theorem matchEdge_nil (node : RTNode) : matchEdge node [] = .error .indexError := rfl

theorem matchEdge_cons_isOk (node : RTNode) (c : Char) (rest : List Char) :
    (matchEdge node (c :: rest)).isOk = true := by
  simp only [matchEdge]
  cases dictGet [c] node.children <;> rfl

theorem matchEdge_ok_some (node : RTNode) (word : List Char) (e : RTEdge)
    (cp ws es : List Char)
    (h : matchEdge node word = .ok (some e, cp, ws, es)) :
    ∃ c rest, word = c :: rest ∧ dictGet [c] node.children = some e ∧
      longestCommonPref word e.label = (cp, ws, es) := by
  cases word with
  | nil => exact absurd h (by simp [matchEdge])
  | cons c rest =>
    refine ⟨c, rest, rfl, ?_⟩
    cases hg : dictGet [c] node.children with
    | none =>
      simp [matchEdge, hg] at h
    | some edge =>
      simp only [matchEdge, hg, Except.ok.injEq, Prod.mk.injEq, Option.some.injEq] at h
      obtain ⟨he, h1, h2, h3⟩ := h
      subst he
      refine ⟨rfl, ?_⟩
      rw [← h1, ← h2, ← h3]

theorem matchEdge_ok_none (node : RTNode) (word : List Char)
    (cp ws es : List Char)
    (h : matchEdge node word = .ok (none, cp, ws, es)) :
    ∃ c rest, word = c :: rest ∧ dictGet [c] node.children = none ∧
      cp = [] ∧ ws = word ∧ es = [] := by
  cases word with
  | nil => exact absurd h (by simp [matchEdge])
  | cons c rest =>
    refine ⟨c, rest, rfl, ?_⟩
    cases hg : dictGet [c] node.children with
    | none =>
      simp only [matchEdge, hg, Except.ok.injEq, Prod.mk.injEq, true_and] at h
      obtain ⟨h1, h2, h3⟩ := h
      exact ⟨rfl, h1.symm, h2.symm, h3.symm⟩
    | some edge =>
      simp [matchEdge, hg] at h

theorem matchEdge_cons_ok_some (node : RTNode) (c : Char) (rest : List Char) (e : RTEdge)
    (cp ws es : List Char)
    (h : matchEdge node (c :: rest) = .ok (some e, cp, ws, es)) :
    dictGet [c] node.children = some e ∧
      longestCommonPref (c :: rest) e.label = (cp, ws, es) := by
  obtain ⟨c', r', heq, hg, hl⟩ := matchEdge_ok_some node (c :: rest) e cp ws es h
  injection heq with h1 h2
  subst h1
  subst h2
  exact ⟨hg, hl⟩

theorem lex3_step {a a' b b' c c' : Nat}
    (h : a < a' ∨ (a = a' ∧ (b < b' ∨ (b = b' ∧ c < c')))) :
    Prod.Lex (· < ·) (Prod.Lex (· < ·) (· < ·)) (a, b, c) (a', b', c') := by
  rcases h with h | ⟨rfl, h⟩
  · exact Prod.Lex.left _ _ h
  · rcases h with h | ⟨rfl, h⟩
    · exact Prod.Lex.right _ (Prod.Lex.left _ _ h)
    · exact Prod.Lex.right _ (Prod.Lex.right _ h)

/-- Auxiliary measure used only to justify termination of the insert embedding on
arbitrary nodes, including malformed ones with empty or mismatching edge labels:
0 when no edge hangs at the first character of the word, 3 when the found edge has
an empty label, 2 when its label starts with that character, 1 otherwise. -/
def gW (node : RTNode) (word : List Char) : Nat :=
  match word with
  | [] => 0
  | c :: _ =>
    match dictGet [c] node.children with
    | none => 0
    | some e =>
      match e.label with
      | [] => 3
      | l0 :: _ => if l0 = c then 2 else 1

theorem gW_le_three (node : RTNode) (word : List Char) : gW node word ≤ 3 := by
  cases word with
  | nil => simp [gW]
  | cons c rest =>
    cases hg : dictGet [c] node.children with
    | none => simp [gW, hg]
    | some e =>
      cases hl : e.label with
      | nil => simp [gW, hg, hl]
      | cons l0 ls => by_cases hc : l0 = c <;> simp [gW, hg, hl, hc]

/-- The state RadixTrie.__init__ creates: root = RTNode(False, {}). -/
def emptyRT : RTNode := RTNode.mk false []

theorem insert_dec_full (node : RTNode) (c : Char) (rest : List Char) (edge : RTEdge)
    (cp ws : List Char)
    (hm : matchEdge node (c :: rest) = .ok (some edge, cp, ws, [])) :
    Prod.Lex (· < ·) (Prod.Lex (· < ·) (· < ·))
      (ws.length, gW edge.destination ws, sizeOf edge.destination)
      ((c :: rest).length, gW node (c :: rest), sizeOf node) := by
  obtain ⟨hg, hlcp⟩ := matchEdge_cons_ok_some node c rest edge cp ws [] hm
  by_cases hcp : cp = []
  · have hnil : (longestCommonPref (c :: rest) edge.label).1 = [] := by
      rw [hlcp]
      exact hcp
    have hws : ws = c :: rest := by
      have h2 := (lcp_cp_nil (c :: rest) edge.label hnil).1
      rw [hlcp] at h2
      exact h2
    have hlab : edge.label = [] := by
      have h3 := (lcp_cp_nil (c :: rest) edge.label hnil).2
      rw [hlcp] at h3
      exact h3.symm
    have hgw : gW node (c :: rest) = 3 := by
      simp only [gW, hg]
      rw [hlab]
    have hgw2 : gW edge.destination (c :: rest) ≤ 3 := gW_le_three _ _
    have hsz : sizeOf edge.destination < sizeOf node := sizeOf_dest_lt' [c] edge node hg
    rw [hws]
    apply lex3_step
    omega
  · have hlt : ws.length < (c :: rest).length := by
      have h4 := lcp_ws_length_lt (c :: rest) edge.label (by rw [hlcp]; exact hcp)
      rw [hlcp] at h4
      exact h4
    exact lex3_step (Or.inl hlt)

theorem insert_dec_split (node : RTNode) (c : Char) (rest : List Char) (edge : RTEdge)
    (cp ws : List Char) (e0 : Char) (es' : List Char)
    (hm : matchEdge node (c :: rest) = .ok (some edge, cp, ws, e0 :: es')) :
    Prod.Lex (· < ·) (Prod.Lex (· < ·) (· < ·))
      (ws.length,
        gW (RTNode.mk false (dictSet [e0] (RTNode.mk false [], e0 :: es') [])) ws,
        sizeOf (RTNode.mk false (dictSet [e0] (RTNode.mk false [], e0 :: es') [])))
      ((c :: rest).length, gW node (c :: rest), sizeOf node) := by
  obtain ⟨hg, hlcp⟩ := matchEdge_cons_ok_some node c rest edge cp ws (e0 :: es') hm
  by_cases hcp : cp = []
  · have hnil : (longestCommonPref (c :: rest) edge.label).1 = [] := by
      rw [hlcp]
      exact hcp
    have hws : ws = c :: rest := by
      have h2 := (lcp_cp_nil (c :: rest) edge.label hnil).1
      rw [hlcp] at h2
      exact h2
    have hlab : edge.label = e0 :: es' := by
      have h3 := (lcp_cp_nil (c :: rest) edge.label hnil).2
      rw [hlcp] at h3
      exact h3.symm
    have hne : c ≠ e0 := lcp_cp_nil_head_ne c e0 rest es' (by rw [← hlab]; exact hnil)
    have hgw1 : gW node (c :: rest) = 1 := by
      simp only [gW, hg]
      rw [hlab]
      simp [Ne.symm hne]
    have hgw0 :
        gW (RTNode.mk false (dictSet [e0] (RTNode.mk false [], e0 :: es') []))
          (c :: rest) = 0 := by
      simp [gW, dictGet, dictSet, hne]
    rw [hws]
    apply lex3_step
    omega
  · have hlt : ws.length < (c :: rest).length := by
      have h4 := lcp_ws_length_lt (c :: rest) edge.label (by rw [hlcp]; exact hcp)
      rw [hlcp] at h4
      exact h4
    exact lex3_step (Or.inl hlt)

/-- Python RadixTrie.insert, embedded functionally: the result is the node after the
in-place mutation. The split branch follows the source exactly, in particular the new
edge under the bridge points at a fresh empty non-key node RTNode(False, {}) (line
129 of radix_trie.py), not at the original destination. The .error branch of the
matchEdge result is unreachable because the word passed is a nonempty cons. -/
def insert (node : RTNode) (word : List Char) : RTNode :=
  match word with
  | [] => RTNode.mk true node.children
  | c :: rest =>
    match hm : matchEdge node (c :: rest) with
    | .error _ => node
    | .ok (none, _, _, _) =>
      RTNode.mk node.key_node (dictSet [c] (RTNode.mk true [], c :: rest) node.children)
    | .ok (some edge, cp, ws, []) =>
      RTNode.mk node.key_node
        (dictSet [c] (insert edge.destination ws, edge.label) node.children)
    | .ok (some edge, cp, ws, e0 :: es') =>
      RTNode.mk node.key_node
        (dictSet [c]
          (insert (RTNode.mk false (dictSet [e0] (RTNode.mk false [], e0 :: es') [])) ws, cp)
          node.children)
termination_by (word.length, gW node word, sizeOf node)
decreasing_by
  · rename_i rest
    exact insert_dec_full node c rest edge cp ws hm
  · rename_i rest
    exact insert_dec_split node c rest edge cp ws e0 es' hm

/-- Python RadixTrie.search, with its runtime errors made explicit. The recursive
call looks the destination up as node.children[commonPrefix], exactly as line 70 of
the source does; when that key is absent the Python code raises a KeyError. -/
def search (node : RTNode) (word : List Char) : Except Err Bool :=
  match word with
  | [] => .ok node.key_node
  | c :: rest =>
    match matchEdge node (c :: rest) with
    | .error e => .error e
    | .ok (some _, cp, ws, []) =>
      match hg : dictGet cp node.children with
      | none => .error .keyError
      | some e2 => search e2.destination ws
    | .ok _ => .ok false
termination_by sizeOf node
decreasing_by
  exact sizeOf_dest_lt' cp e2 node hg

/-- Python RadixTrie._isPassThrough: non-key node with exactly one child (the parent
argument is unused, as in the source). -/
def isPassThrough (node parent : RTNode) : Bool :=
  node.key_node == false && node.children.length == 1

/-- Python RadixTrie._getPassThroughEdge: the first edge in iteration order, or
None when the node has no children. -/
def getPassThroughEdge (node : RTNode) : Option RTEdge :=
  node.children.head?.map (fun p => p.2)

/-- Python RadixTrie.remove, embedded functionally: the mutated node together with
the (deleted, shouldPrune) pair the source returns. The .error branch and the
missing pass-through-edge branch are unreachable along the source's control flow. -/
def remove (node : RTNode) (word : List Char) : RTNode × Bool × Bool :=
  match word with
  | [] => (RTNode.mk false node.children, true, node.children.length == 0)
  | c :: rest =>
    match hm : matchEdge node (c :: rest) with
    | .error _ => (node, false, false)
    | .ok (some edge, cp, ws, []) =>
      let r := remove edge.destination ws
      if r.2.1 then
        if r.2.2 then
          (RTNode.mk node.key_node (dictPop [c] node.children), r.2.1, false)
        else if isPassThrough r.1 node then
          match getPassThroughEdge r.1 with
          | some next_edge =>
            (RTNode.mk node.key_node
              (dictSet [c] (next_edge.destination, edge.label ++ next_edge.label)
                node.children),
             r.2.1, false)
          | none => (node, r.2.1, false)
        else
          (RTNode.mk node.key_node (dictSet [c] (r.1, edge.label) node.children),
           r.2.1, false)
      else
        (RTNode.mk node.key_node (dictSet [c] (r.1, edge.label) node.children),
         r.2.1, false)
    | .ok _ => (node, false, false)
termination_by sizeOf node
decreasing_by
  exact sizeOf_dest_lt' [c] edge node (matchEdge_cons_ok_some node c rest edge cp ws [] hm).1

/-- Python RadixTrie.searchNodeWithPrefix. -/
def searchNodeWithPref (node : RTNode) (word : List Char) : Option RTNode :=
  match word with
  | [] => some node
  | c :: rest =>
    match hm : matchEdge node (c :: rest) with
    | .error _ => none
    | .ok (none, _, _, _) => none
    | .ok (some edge, _, ws, []) => searchNodeWithPref edge.destination ws
    | .ok (some edge, _, [], _ :: _) => some edge.destination
    | .ok (some _, _, _ :: _, _ :: _) => none
termination_by sizeOf node
decreasing_by
  exact sizeOf_dest_lt' [c] edge node
    (matchEdge_cons_ok_some node c rest edge _ ws [] hm).1

/-- Python RadixTrie.longestPrefix: literally _longestCommonPrefix(word, word)[0]. -/
def longestPref (word : List Char) : List Char :=
  (longestCommonPref word word).1

theorem sizeOf_children_lt (n : RTNode) : sizeOf n.children < sizeOf n := by
  cases n with
  | mk b l =>
    simp only [children_mk, RTNode.mk.sizeOf_spec]
    omega

theorem sizeOf_entry_dest_lt (p : List Char × RTEdge) (rest : List (List Char × RTEdge)) :
    sizeOf p.2.1 < sizeOf (p :: rest) := by
  obtain ⟨k, d, lab⟩ := p
  simp only [Prod.mk.sizeOf_spec, List.cons.sizeOf_spec]
  omega

theorem sizeOf_tail_lt (p : List Char × RTEdge) (rest : List (List Char × RTEdge)) :
    sizeOf rest < sizeOf (p :: rest) := by
  have : 0 < sizeOf p := by
    obtain ⟨k, d, lab⟩ := p
    simp only [Prod.mk.sizeOf_spec]
    omega
  simp only [List.cons.sizeOf_spec]
  omega

mutual
/-- Modelled from the spec: RadixTrie.keysWithPrefix is absent from the source (only
the plain Trie has keys_with_prefix); spec sections 4.1 and 6 describe it as locating
the subtree for the prefix via searchNodeWithPrefix and then enumerating every key
node beneath it, concatenating edge labels along each path, with the prefix as base
string exactly as Trie.get_words does. collectKeys is that enumeration, in child
iteration order. -/
def collectKeys (node : RTNode) (acc : List Char) : List (List Char) :=
  (if node.key_node then [acc] else []) ++ collectKeysList node.children acc
termination_by sizeOf node
decreasing_by
  exact sizeOf_children_lt node

/-- Helper of collectKeys: enumerate over the child list. -/
def collectKeysList (l : List (List Char × RTEdge)) (acc : List Char) :
    List (List Char) :=
  match l with
  | [] => []
  | p :: rest => collectKeys p.2.1 (acc ++ p.2.2) ++ collectKeysList rest acc
termination_by sizeOf l
decreasing_by
  · exact sizeOf_entry_dest_lt p rest
  · exact sizeOf_tail_lt p rest
end

/-- Modelled from the spec: keysWithPrefix(prefix) for the radix trie, locating the
subtree with searchNodeWithPrefix and enumerating the keys beneath it. -/
def keysWithPref (root : RTNode) (p : List Char) : List (List Char) :=
  match searchNodeWithPref root p with
  | none => []
  | some n => collectKeys n p

mutual
/-- Compression property of the spec checked recursively over a subtree: a non-key
node never has exactly one child. -/
def subtreeOk (node : RTNode) : Bool :=
  (node.key_node || !(node.children.length == 1)) && subtreeOkList node.children
termination_by sizeOf node
decreasing_by
  exact sizeOf_children_lt node

/-- Helper of subtreeOk: check every child subtree. -/
def subtreeOkList (l : List (List Char × RTEdge)) : Bool :=
  match l with
  | [] => true
  | p :: rest => subtreeOk p.2.1 && subtreeOkList rest
termination_by sizeOf l
decreasing_by
  · exact sizeOf_entry_dest_lt p rest
  · exact sizeOf_tail_lt p rest
end

/-- Compression invariant at the root: every reachable node other than the root
itself is a key node or has a child count different from one. -/
def compressedOk (root : RTNode) : Bool :=
  subtreeOkList root.children

/-- Traversal predicate of remove: true exactly when remove's edge walk fully
matches the word, which is when the source reports deleted=True. -/
def pathFullMatch (node : RTNode) (word : List Char) : Bool :=
  match word with
  | [] => true
  | c :: rest =>
    match hm : matchEdge node (c :: rest) with
    | .error _ => false
    | .ok (some edge, cp, ws, []) => pathFullMatch edge.destination ws
    | .ok _ => false
termination_by sizeOf node
decreasing_by
  exact sizeOf_dest_lt' [c] edge node (matchEdge_cons_ok_some node c rest edge cp ws [] hm).1

mutual
/-- Well-formedness that every trie reachable through the public API enjoys: each
edge label is nonempty and starts with the character keying it in the parent dict. -/
def wfTrie (node : RTNode) : Bool :=
  wfTrieList node.children
termination_by sizeOf node
decreasing_by
  exact sizeOf_children_lt node

/-- Helper of wfTrie: check every child entry. -/
def wfTrieList (l : List (List Char × RTEdge)) : Bool :=
  match l with
  | [] => true
  | p :: rest =>
    (match p.2.2 with
     | [] => false
     | l0 :: _ => p.1 == [l0]) && wfTrie p.2.1 && wfTrieList rest
termination_by sizeOf l
decreasing_by
  · exact sizeOf_entry_dest_lt p rest
  · exact sizeOf_tail_lt p rest
end

/-- Step 1 of the concrete scenario: the trie after inserting 'an'. -/
def scT1 : RTNode := insert emptyRT ['a','n']

/-- Step 2 of the concrete scenario: the trie after inserting 'and'. -/
def scT2 : RTNode := insert scT1 ['a','n','d']

/-- Step 3 of the concrete scenario: the trie after inserting 'ant'. -/
def scT3 : RTNode := insert scT2 ['a','n','t']

/-- Step 4 of the concrete scenario: the trie after inserting 'anthem'. -/
def scT4 : RTNode := insert scT3 ['a','n','t','h','e','m']

/-- Step 5 of the concrete scenario: the trie after inserting 'anti'. -/
def scT5 : RTNode := insert scT4 ['a','n','t','i']

/-- Step 6 of the concrete scenario: the trie after inserting 'antidote'. -/
def scT6 : RTNode := insert scT5 ['a','n','t','i','d','o','t','e']

/-- Step 7 of the concrete scenario: the trie after inserting 'antonym'. -/
def scT7 : RTNode := insert scT6 ['a','n','t','o','n','y','m']

/-- Step 8 of the concrete scenario: the trie after inserting 'antipathy'. -/
def scT8 : RTNode := insert scT7 ['a','n','t','i','p','a','t','h','y']

/-- Step 9 of the concrete scenario: the trie after inserting 'any'. -/
def scT9 : RTNode := insert scT8 ['a','n','y']

/-- Step 10 of the concrete scenario: the trie after inserting 'anybody'. -/
def scT10 : RTNode := insert scT9 ['a','n','y','b','o','d','y']

/-- Step 11 of the concrete scenario: the trie after inserting 'anyhow'. -/
def scT11 : RTNode := insert scT10 ['a','n','y','h','o','w']

/-- Step 12 of the concrete scenario: the trie after inserting 'anyone'. -/
def scT12 : RTNode := insert scT11 ['a','n','y','o','n','e']

/-- Subtree of the scenario trie below the path spelling "anti". -/
def scI : RTNode := RTNode.mk true
  [(['d'], (RTNode.mk true [], ['d','o','t','e'])),
   (['p'], (RTNode.mk true [], ['p','a','t','h','y']))]

/-- Subtree of the scenario trie below the path spelling "ant". -/
def scTT : RTNode := RTNode.mk true
  [(['h'], (RTNode.mk true [], ['h','e','m'])),
   (['i'], (scI, ['i'])),
   (['o'], (RTNode.mk true [], ['o','n','y','m']))]

/-- Subtree of the scenario trie below the path spelling "any". -/
def scY : RTNode := RTNode.mk true
  [(['b'], (RTNode.mk true [], ['b','o','d','y'])),
   (['h'], (RTNode.mk true [], ['h','o','w'])),
   (['o'], (RTNode.mk true [], ['o','n','e']))]

/-- Subtree of the scenario trie below the path spelling "an". -/
def scAN : RTNode := RTNode.mk true
  [(['d'], (RTNode.mk true [], ['d'])),
   (['t'], (scTT, ['t'])),
   (['y'], (scY, ['y']))]

/-- The scenario trie written with its subtrees named. -/
def scRoot : RTNode := RTNode.mk false [(['a'], (scAN, ['a','n']))]

theorem insert_nil (node : RTNode) : insert node [] = RTNode.mk true node.children := by
  rw [insert.eq_1]

theorem insert_cons_error (node : RTNode) (c : Char) (rest : List Char) (e : Err)
    (hm : matchEdge node (c :: rest) = .error e) :
    insert node (c :: rest) = node := by
  rw [insert.eq_2]
  split
  · rfl
  · rename_i heq
    rw [hm] at heq
    exact Except.noConfusion heq
  · rename_i edge cp ws heq
    rw [hm] at heq
    exact Except.noConfusion heq
  · rename_i edge cp ws e0 es' heq
    rw [hm] at heq
    exact Except.noConfusion heq

theorem insert_cons_none (node : RTNode) (c : Char) (rest : List Char)
    (cp ws es : List Char)
    (hm : matchEdge node (c :: rest) = .ok (none, cp, ws, es)) :
    insert node (c :: rest) =
      RTNode.mk node.key_node (dictSet [c] (RTNode.mk true [], c :: rest) node.children) := by
  rw [insert.eq_2]
  split
  · rename_i heq
    rw [hm] at heq
    exact Except.noConfusion heq
  · rfl
  · rename_i edge cp' ws' heq
    rw [hm] at heq
    simp at heq
  · rename_i edge cp' ws' e0 es' heq
    rw [hm] at heq
    simp at heq

theorem insert_cons_full (node : RTNode) (c : Char) (rest : List Char) (edge : RTEdge)
    (cp ws : List Char)
    (hm : matchEdge node (c :: rest) = .ok (some edge, cp, ws, [])) :
    insert node (c :: rest) =
      RTNode.mk node.key_node
        (dictSet [c] (insert edge.destination ws, edge.label) node.children) := by
  rw [insert.eq_2]
  split
  · rename_i heq
    rw [hm] at heq
    exact Except.noConfusion heq
  · rename_i heq
    rw [hm] at heq
    simp at heq
  · rename_i edge' cp' ws' heq
    rw [hm] at heq
    simp only [Except.ok.injEq, Prod.mk.injEq, Option.some.injEq] at heq
    obtain ⟨h1, h2, h3, h4⟩ := heq
    subst h1
    subst h3
    rfl
  · rename_i edge' cp' ws' e0 es' heq
    rw [hm] at heq
    simp at heq

theorem insert_cons_split (node : RTNode) (c : Char) (rest : List Char) (edge : RTEdge)
    (cp ws : List Char) (e0 : Char) (es' : List Char)
    (hm : matchEdge node (c :: rest) = .ok (some edge, cp, ws, e0 :: es')) :
    insert node (c :: rest) =
      RTNode.mk node.key_node
        (dictSet [c]
          (insert (RTNode.mk false (dictSet [e0] (RTNode.mk false [], e0 :: es') [])) ws, cp)
          node.children) := by
  rw [insert.eq_2]
  split
  · rename_i heq
    rw [hm] at heq
    exact Except.noConfusion heq
  · rename_i heq
    rw [hm] at heq
    simp at heq
  · rename_i edge' cp' ws' heq
    rw [hm] at heq
    simp at heq
  · rename_i edge' cp' ws' f0 fs' heq
    rw [hm] at heq
    simp only [Except.ok.injEq, Prod.mk.injEq, Option.some.injEq, List.cons.injEq] at heq
    obtain ⟨h1, h2, h3, h4, h5⟩ := heq
    subst h1
    subst h2
    subst h3
    subst h4
    subst h5
    rfl

theorem remove_cons_error (node : RTNode) (c : Char) (rest : List Char) (e : Err)
    (hm : matchEdge node (c :: rest) = .error e) :
    remove node (c :: rest) = (node, false, false) := by
  rw [remove.eq_2]
  split
  · rfl
  · rename_i edge cp ws heq
    rw [hm] at heq
    exact Except.noConfusion heq
  · rfl

theorem remove_cons_other (node : RTNode) (c : Char) (rest : List Char)
    (eo : Option RTEdge) (cp ws es : List Char)
    (hm : matchEdge node (c :: rest) = .ok (eo, cp, ws, es))
    (hno : eo = none ∨ es ≠ []) :
    remove node (c :: rest) = (node, false, false) := by
  rw [remove.eq_2]
  split
  · rfl
  · rename_i edge cp' ws' heq
    rw [hm] at heq
    simp only [Except.ok.injEq, Prod.mk.injEq] at heq
    obtain ⟨h1, h2, h3, h4⟩ := heq
    rcases hno with hno | hno
    · rw [hno] at h1
      exact Option.noConfusion h1
    · exact absurd h4 hno
  · rfl

theorem remove_cons_full (node : RTNode) (c : Char) (rest : List Char) (edge : RTEdge)
    (cp ws : List Char)
    (hm : matchEdge node (c :: rest) = .ok (some edge, cp, ws, [])) :
    remove node (c :: rest) =
      (if (remove edge.destination ws).2.1 = true then
        if (remove edge.destination ws).2.2 = true then
          (RTNode.mk node.key_node (dictPop [c] node.children),
            (remove edge.destination ws).2.1, false)
        else
          if isPassThrough (remove edge.destination ws).1 node = true then
            match getPassThroughEdge (remove edge.destination ws).1 with
            | some next_edge =>
              (RTNode.mk node.key_node
                  (dictSet [c] (next_edge.destination, edge.label ++ next_edge.label)
                    node.children),
                (remove edge.destination ws).2.1, false)
            | none => (node, (remove edge.destination ws).2.1, false)
          else
            (RTNode.mk node.key_node
                (dictSet [c] ((remove edge.destination ws).1, edge.label) node.children),
              (remove edge.destination ws).2.1, false)
      else
        (RTNode.mk node.key_node
            (dictSet [c] ((remove edge.destination ws).1, edge.label) node.children),
          (remove edge.destination ws).2.1, false)) := by
  rw [remove.eq_2]
  split
  · rename_i heq
    rw [hm] at heq
    exact Except.noConfusion heq
  · rename_i edge' cp' ws' heq
    rw [hm] at heq
    simp only [Except.ok.injEq, Prod.mk.injEq, Option.some.injEq] at heq
    obtain ⟨h1, h2, h3, h4⟩ := heq
    subst h1
    subst h3
    rfl
  · rename_i a hne heq
    rw [hm] at heq
    have ha : (some edge, cp, ws, ([] : List Char)) = a := by
      injection heq
    exact absurd ha.symm (by intro hc; exact hne edge cp ws hc)

theorem search_nil (node : RTNode) : search node [] = .ok node.key_node := by
  rw [search.eq_1]

theorem search_cons_error (node : RTNode) (c : Char) (rest : List Char) (e : Err)
    (hm : matchEdge node (c :: rest) = .error e) :
    search node (c :: rest) = .error e := by
  rw [search.eq_2]
  split
  · rename_i e' heq
    rw [hm] at heq
    injection heq with h1
    rw [h1]
  · rename_i heq
    rw [hm] at heq
    exact Except.noConfusion heq
  · rename_i a hne heq
    rw [hm] at heq
    exact Except.noConfusion heq

theorem search_cons_other (node : RTNode) (c : Char) (rest : List Char)
    (eo : Option RTEdge) (cp ws es : List Char)
    (hm : matchEdge node (c :: rest) = .ok (eo, cp, ws, es))
    (hno : eo = none ∨ es ≠ []) :
    search node (c :: rest) = .ok false := by
  rw [search.eq_2]
  split
  · rename_i e' heq
    rw [hm] at heq
    exact Except.noConfusion heq
  · rename_i e1 cp' ws' heq
    rw [hm] at heq
    simp only [Except.ok.injEq, Prod.mk.injEq] at heq
    obtain ⟨h1, h2, h3, h4⟩ := heq
    rcases hno with hno | hno
    · rw [hno] at h1
      exact Option.noConfusion h1
    · exact absurd h4 hno
  · rfl

theorem search_cons_full_miss (node : RTNode) (c : Char) (rest : List Char)
    (e1 : RTEdge) (cp ws : List Char)
    (hm : matchEdge node (c :: rest) = .ok (some e1, cp, ws, []))
    (hg : dictGet cp node.children = none) :
    search node (c :: rest) = .error .keyError := by
  rw [search.eq_2]
  split
  · rename_i e' heq
    rw [hm] at heq
    exact Except.noConfusion heq
  · rename_i e1' cp' ws' heq
    rw [hm] at heq
    simp only [Except.ok.injEq, Prod.mk.injEq, Option.some.injEq] at heq
    obtain ⟨h1, h2, h3, h4⟩ := heq
    subst h2
    subst h3
    split
    · rfl
    · rename_i e2 hg'
      rw [hg] at hg'
      exact Option.noConfusion hg'
  · rename_i a hne heq
    rw [hm] at heq
    have ha : (some e1, cp, ws, ([] : List Char)) = a := by
      injection heq
    exact absurd ha.symm (by intro hc; exact hne e1 cp ws hc)

theorem search_cons_full_hit (node : RTNode) (c : Char) (rest : List Char)
    (e1 e2 : RTEdge) (cp ws : List Char)
    (hm : matchEdge node (c :: rest) = .ok (some e1, cp, ws, []))
    (hg : dictGet cp node.children = some e2) :
    search node (c :: rest) = search e2.destination ws := by
  rw [search.eq_2]
  split
  · rename_i e' heq
    rw [hm] at heq
    exact Except.noConfusion heq
  · rename_i e1' cp' ws' heq
    rw [hm] at heq
    simp only [Except.ok.injEq, Prod.mk.injEq, Option.some.injEq] at heq
    obtain ⟨h1, h2, h3, h4⟩ := heq
    subst h2
    subst h3
    split
    · rename_i hg'
      rw [hg] at hg'
      exact Option.noConfusion hg'
    · rename_i e2' hg'
      rw [hg] at hg'
      injection hg' with h5
      rw [h5]
  · rename_i a hne heq
    rw [hm] at heq
    have ha : (some e1, cp, ws, ([] : List Char)) = a := by
      injection heq
    exact absurd ha.symm (by intro hc; exact hne e1 cp ws hc)

theorem pfm_nil (node : RTNode) : pathFullMatch node [] = true := by
  rw [pathFullMatch.eq_1]

theorem pfm_cons_error (node : RTNode) (c : Char) (rest : List Char) (e : Err)
    (hm : matchEdge node (c :: rest) = .error e) :
    pathFullMatch node (c :: rest) = false := by
  rw [pathFullMatch.eq_2]
  split
  · rfl
  · rename_i edge cp ws heq
    rw [hm] at heq
    exact Except.noConfusion heq
  · rfl

theorem pfm_cons_other (node : RTNode) (c : Char) (rest : List Char)
    (eo : Option RTEdge) (cp ws es : List Char)
    (hm : matchEdge node (c :: rest) = .ok (eo, cp, ws, es))
    (hno : eo = none ∨ es ≠ []) :
    pathFullMatch node (c :: rest) = false := by
  rw [pathFullMatch.eq_2]
  split
  · rfl
  · rename_i edge cp' ws' heq
    rw [hm] at heq
    simp only [Except.ok.injEq, Prod.mk.injEq] at heq
    obtain ⟨h1, h2, h3, h4⟩ := heq
    rcases hno with hno | hno
    · rw [hno] at h1
      exact Option.noConfusion h1
    · exact absurd h4 hno
  · rfl

theorem pfm_cons_full (node : RTNode) (c : Char) (rest : List Char) (edge : RTEdge)
    (cp ws : List Char)
    (hm : matchEdge node (c :: rest) = .ok (some edge, cp, ws, [])) :
    pathFullMatch node (c :: rest) = pathFullMatch edge.destination ws := by
  rw [pathFullMatch.eq_2]
  split
  · rename_i heq
    rw [hm] at heq
    exact Except.noConfusion heq
  · rename_i edge' cp' ws' heq
    rw [hm] at heq
    simp only [Except.ok.injEq, Prod.mk.injEq, Option.some.injEq] at heq
    obtain ⟨h1, h2, h3, h4⟩ := heq
    subst h1
    subst h3
    rfl
  · rename_i a hne heq
    rw [hm] at heq
    have ha : (some edge, cp, ws, ([] : List Char)) = a := by
      injection heq
    exact absurd ha.symm (by intro hc; exact hne edge cp ws hc)

/-- C6: longestPrefix is the identity: for every word, longestPrefix(word) returns
the word itself in full, independent of any trie contents, because the source
computes the longest common prefix of the word with itself. -/
theorem c6_longestPref_identity (w : List Char) : longestPref w = w := by
  simp [longestPref, lcp_self]

/-- C1: the insert/search round trip fails on the code: after inserting exactly the
words "ab" and "ac" into an empty trie, search("ab") returns False, because the
split performed while inserting "ac" discards the node that stored "ab"; and with
W = {"ab"} alone, search("ab") raises a KeyError, because line 70 looks up
node.children[commonPrefix] with the two-character string "ab" while the children
dict is keyed by single characters. -/
theorem c1_roundtrip_failure :
    search (insert (insert emptyRT ['a','b']) ['a','c']) ['a','b'] = .ok false ∧
    search (insert emptyRT ['a','b']) ['a','b'] = .error .keyError := by
  constructor
  · simp [insert, matchEdge, emptyRT, search]
  · simp [insert, matchEdge, emptyRT, search]

/-- C2: the edge split does not preserve the existing subtree: inserting "ab" then
"ac", the original edge destination is the key node for "ab" (RTNode true []), but
after the split the new edge labeled with the edge-suffix "b" points at a fresh
non-key childless node (RTNode false []), so the stored key and subtree are lost
instead of inherited. -/
theorem c2_split_discards_subtree :
    insert emptyRT ['a','b'] =
      RTNode.mk false [(['a'], (RTNode.mk true [], ['a','b']))] ∧
    insert (insert emptyRT ['a','b']) ['a','c'] =
      RTNode.mk false [(['a'], (RTNode.mk false
        [(['b'], (RTNode.mk false [], ['b'])),
         (['c'], (RTNode.mk true [], ['c']))], ['a']))] := by
  constructor
  · simp [insert, matchEdge, emptyRT]
  · simp [insert, matchEdge, emptyRT]

/-- C3: the compression invariant is violated by the code: starting from the empty
trie, the insert sequence "ab", "ac", "abd" produces a reachable non-root node (at
path a, then b) that is non-key and has exactly one child, because the split during
the insertion of "ac" replaced the "ab" key node with a fresh non-key leaf. -/
theorem c3_compression_violated :
    compressedOk (insert (insert (insert emptyRT ['a','b']) ['a','c']) ['a','b','d']) =
      false := by
  simp [insert, matchEdge, emptyRT, compressedOk, subtreeOk, subtreeOkList]

/-- C4 counterexample: the empty word is not stored in the empty trie (the root is
not a key node), yet remove reports deleted = True (with shouldPrune = True), not
the deleted = False the claim requires for absent words. -/
theorem c4_counterexample :
    emptyRT.key_node = false ∧ remove emptyRT [] = (emptyRT, true, true) := by
  constructor
  · rfl
  · simp [remove, emptyRT]

/-- Removal with a failed traversal is a strict no-op: when remove's edge walk does
not fully match the word, remove returns the node unchanged with (False, False). -/
theorem remove_unmatched (node : RTNode) (word : List Char)
    (h : pathFullMatch node word = false) :
    remove node word = (node, false, false) := by
  cases word with
  | nil => rw [pfm_nil] at h; exact Bool.noConfusion h
  | cons c rest =>
    cases hm : matchEdge node (c :: rest) with
    | error e => exact remove_cons_error node c rest e hm
    | ok res =>
      obtain ⟨eo, cp, ws, es⟩ := res
      cases eo with
      | none => exact remove_cons_other node c rest none cp ws es hm (Or.inl rfl)
      | some edge =>
        cases es with
        | cons e0 es' =>
          exact remove_cons_other node c rest (some edge) cp ws (e0 :: es') hm
            (Or.inr (by simp))
        | nil =>
          have hrec : pathFullMatch edge.destination ws = false := by
            rw [pfm_cons_full node c rest edge cp ws hm] at h
            exact h
          have ih := remove_unmatched edge.destination ws hrec
          obtain ⟨hg, hl⟩ := matchEdge_cons_ok_some node c rest edge cp ws [] hm
          have hset : dictSet [c] (edge.destination, edge.label) node.children =
              node.children := by
            have he : ((edge.destination, edge.label) : RTEdge) = edge := rfl
            rw [he]
            exact dictSet_dictGet_self [c] edge node.children hg
          rw [remove_cons_full node c rest edge cp ws hm, ih]
          simp [hset, RTNode.eta]
termination_by sizeOf node
decreasing_by
  exact sizeOf_dest_lt' [c] edge node (matchEdge_cons_ok_some node c rest edge cp ws [] hm).1

/-- C4 amended: remove(root, w) returns deleted = False and leaves the trie state
unchanged exactly for the words whose character path fails to fully match the
trie's edges (all such words are in particular not stored); a word whose path does
fully match an existing node, like the empty word on the empty trie, instead
returns deleted = True even when it was never stored as a key. -/
theorem c4_remove_absent_noop (node : RTNode) (word : List Char)
    (h : pathFullMatch node word = false) :
    remove node word = (node, false, false) :=
  remove_unmatched node word h

/-- Witness for c4_remove_absent_noop at a concrete input. -/
theorem c4_witness :
    pathFullMatch emptyRT ['a'] = false ∧
      remove emptyRT ['a'] = (emptyRT, false, false) :=
  ⟨by simp [pathFullMatch, matchEdge, emptyRT],
   c4_remove_absent_noop emptyRT ['a'] (by simp [pathFullMatch, matchEdge, emptyRT])⟩

/-- C8: insert/remove inverse from the empty trie: for every word w, inserting w
into the empty trie and then removing it returns the structure to exactly the empty
state, and searching w afterwards returns False as a normal value. -/
theorem c8_insert_remove_inverse (w : List Char) :
    (remove (insert emptyRT w) w).1 = emptyRT ∧
    search (remove (insert emptyRT w) w).1 w = .ok false := by
  cases w with
  | nil =>
    constructor
    · simp [insert, remove, emptyRT]
    · simp [insert, remove, search, emptyRT]
  | cons c rest =>
    have hm0 : matchEdge emptyRT (c :: rest) = .ok (none, [], c :: rest, []) := by
      simp [matchEdge, emptyRT]
    have h1 : insert emptyRT (c :: rest) =
        RTNode.mk false [([c], (RTNode.mk true [], c :: rest))] := by
      rw [insert_cons_none emptyRT c rest [] (c :: rest) [] hm0]
      simp [emptyRT]
    have hm : matchEdge (RTNode.mk false [([c], (RTNode.mk true [], c :: rest))])
        (c :: rest) = .ok (some (RTNode.mk true [], c :: rest), c :: rest, [], []) := by
      simp [matchEdge, lcp_self]
    have h2 : remove (RTNode.mk false [([c], (RTNode.mk true [], c :: rest))])
        (c :: rest) = (emptyRT, true, false) := by
      rw [remove_cons_full _ c rest (RTNode.mk true [], c :: rest) (c :: rest) [] hm]
      simp [remove, emptyRT]
    have h3 : search emptyRT (c :: rest) = .ok false := by
      rw [search_cons_other emptyRT c rest none [] (c :: rest) [] hm0 (Or.inl rfl)]
    rw [h1, h2]
    exact ⟨rfl, h3⟩

/-- Search never raises the IndexError of _matchEdge: the word is tested for
emptiness before each call, and every recursive call passes the suffix through the
same guard; the only error search can produce is the KeyError of line 70. -/
theorem search_no_idx (node : RTNode) (word : List Char) :
    search node word ≠ .error .indexError := by
  cases word with
  | nil =>
    rw [search_nil]
    exact fun h => Except.noConfusion h
  | cons c rest =>
    cases hm : matchEdge node (c :: rest) with
    | error e =>
      have hk := matchEdge_cons_isOk node c rest
      rw [hm] at hk
      simp [Except.isOk, Except.toBool] at hk
    | ok res =>
      obtain ⟨eo, cp, ws, es⟩ := res
      cases eo with
      | none =>
        rw [search_cons_other node c rest none cp ws es hm (Or.inl rfl)]
        exact fun h => Except.noConfusion h
      | some e1 =>
        cases es with
        | cons e0 es' =>
          rw [search_cons_other node c rest (some e1) cp ws (e0 :: es') hm
            (Or.inr (by simp))]
          exact fun h => Except.noConfusion h
        | nil =>
          cases hg : dictGet cp node.children with
          | none =>
            rw [search_cons_full_miss node c rest e1 cp ws hm hg]
            intro h
            injection h with h1
            exact Err.noConfusion h1
          | some e2 =>
            rw [search_cons_full_hit node c rest e1 e2 cp ws hm hg]
            exact search_no_idx e2.destination ws
termination_by sizeOf node
decreasing_by
  exact sizeOf_dest_lt' cp e2 node hg

/-- C10: the unguarded word[0] read in _matchEdge is always in bounds when invoked
from the public operations: each of search, insert, remove and
searchNodeWithPrefix handles the empty word before calling _matchEdge, and on a
nonempty word _matchEdge never takes its out-of-range branch; in particular search
never propagates an IndexError from any recursion depth. -/
theorem c10_index_safe (node : RTNode) (word : List Char) :
    (word ≠ [] → (matchEdge node word).isOk = true) ∧
      search node word ≠ Except.error Err.indexError := by
  constructor
  · intro hne
    cases word with
    | nil => exact absurd rfl hne
    | cons c rest => exact matchEdge_cons_isOk node c rest
  · exact search_no_idx node word

/-- Witness for c10_index_safe at a concrete input. -/
theorem c10_witness :
    (matchEdge emptyRT ['a']).isOk = true ∧
      search emptyRT ['a'] ≠ Except.error Err.indexError :=
  ⟨(c10_index_safe emptyRT ['a']).1 (by simp),
   (c10_index_safe emptyRT ['a']).2⟩

theorem wfTrieList_mem (l : List (List Char × RTEdge)) (k : List Char) (e : RTEdge)
    (h : wfTrieList l = true) (hmem : (k, e) ∈ l) :
    (∃ l0 ls, e.2 = l0 :: ls ∧ k = [l0]) ∧ wfTrie e.1 = true := by
  induction l with
  | nil => exact absurd hmem (by simp)
  | cons p rest ih =>
    simp only [wfTrieList] at h
    rw [Bool.and_eq_true, Bool.and_eq_true] at h
    obtain ⟨⟨h1, h2⟩, h3⟩ := h
    rcases List.mem_cons.mp hmem with heq | hmem'
    · rw [← heq] at h1 h2
      cases hl : e.2 with
      | nil =>
        rw [hl] at h1
        simp at h1
      | cons l0 ls =>
        rw [hl] at h1
        simp only [beq_iff_eq] at h1
        exact ⟨⟨l0, ls, rfl, h1⟩, h2⟩
    · exact ih h3 hmem'

/-- C9: on well-formed tries (every edge label nonempty and keyed by its first
character, which holds for every API-reachable trie), a successful _matchEdge on a
word always consumes a nonempty common prefix, so each recursive call of search,
insert, remove and searchNodeWithPrefix receives a strictly shorter word; together
with the totality of the embedded operations this is the termination argument of
the claim. -/
theorem c9_match_decreases (node : RTNode) (w : List Char) (e : RTEdge)
    (cp ws es : List Char) (hwf : wfTrie node = true)
    (hm : matchEdge node w = .ok (some e, cp, ws, es)) :
    cp ≠ [] ∧ ws.length < w.length := by
  obtain ⟨c, rest, rfl, hg, hlcp⟩ := matchEdge_ok_some node w e cp ws es hm
  have hmem := dictGet_mem [c] e node.children hg
  rw [wfTrie] at hwf
  obtain ⟨⟨l0, ls, hlab, hk⟩, hsub⟩ := wfTrieList_mem node.children [c] e hwf hmem
  have hl0 : l0 = c := by
    injection hk with h1 h2
    exact h1.symm
  have hlab' : e.label = c :: ls := by
    rw [← hl0]
    exact hlab
  have h1 : (longestCommonPref (c :: rest) e.label).1 = cp := by
    rw [hlcp]
  have h2 : (longestCommonPref (c :: rest) e.label).2.1 = ws := by
    rw [hlcp]
  have hc1 : (longestCommonPref (c :: rest) e.label).1 =
      c :: (longestCommonPref rest ls).1 := by
    rw [hlab']
    simp
  have hcpne : cp ≠ [] := by
    rw [← h1, hc1]
    simp
  have hlt : ws.length < (c :: rest).length := by
    rw [← h2]
    exact lcp_ws_length_lt (c :: rest) e.label (by rw [h1]; exact hcpne)
  exact ⟨hcpne, hlt⟩

/-- Witness for c9_match_decreases at a concrete input. -/
theorem c9_witness :
    wfTrie (RTNode.mk false [(['a'], (RTNode.mk true [], ['a','b']))]) = true ∧
    matchEdge (RTNode.mk false [(['a'], (RTNode.mk true [], ['a','b']))]) ['a','b'] =
      .ok (some (RTNode.mk true [], ['a','b']), ['a','b'], [], []) ∧
    ((['a','b'] : List Char) ≠ [] ∧
      ([] : List Char).length < (['a','b'] : List Char).length) :=
  ⟨by simp [wfTrie, wfTrieList],
   by simp [matchEdge, lcp_self],
   c9_match_decreases (RTNode.mk false [(['a'], (RTNode.mk true [], ['a','b']))])
     ['a','b'] (RTNode.mk true [], ['a','b']) ['a','b'] [] []
     (by simp [wfTrie, wfTrieList]) (by simp [matchEdge, lcp_self])⟩

/-- Inserting a word twice yields exactly the same node value as inserting it
once, for every node (also malformed ones) and every word. -/
theorem insert_twice (node : RTNode) (word : List Char) :
    insert (insert node word) word = insert node word := by
  cases word with
  | nil =>
    rw [insert_nil node, insert_nil (RTNode.mk true node.children)]
    simp
  | cons c rest =>
    cases hm : matchEdge node (c :: rest) with
    | error e =>
      rw [insert_cons_error node c rest e hm, insert_cons_error node c rest e hm]
    | ok res =>
      obtain ⟨eo, cp, ws, es⟩ := res
      cases eo with
      | none =>
        rw [insert_cons_none node c rest cp ws es hm]
        have hm2 : matchEdge
            (RTNode.mk node.key_node
              (dictSet [c] (RTNode.mk true [], c :: rest) node.children)) (c :: rest) =
            .ok (some (RTNode.mk true [], c :: rest), c :: rest, [], []) := by
          simp [matchEdge, dictGet_dictSet_self, lcp_self]
        rw [insert_cons_full _ c rest (RTNode.mk true [], c :: rest) (c :: rest) [] hm2]
        simp [insert_nil, dictSet_dictSet]
      | some edge =>
        cases es with
        | nil =>
          rw [insert_cons_full node c rest edge cp ws hm]
          obtain ⟨hg, hlcp⟩ := matchEdge_cons_ok_some node c rest edge cp ws [] hm
          have ih := insert_twice edge.destination ws
          have hm2 : matchEdge
              (RTNode.mk node.key_node
                (dictSet [c] (insert edge.destination ws, edge.label) node.children))
              (c :: rest) =
              .ok (some (insert edge.destination ws, edge.label), cp, ws, []) := by
            simp [matchEdge, dictGet_dictSet_self, hlcp]
          rw [insert_cons_full _ c rest (insert edge.destination ws, edge.label)
            cp ws hm2]
          simp [ih, dictSet_dictSet]
        | cons e0 es' =>
          rw [insert_cons_split node c rest edge cp ws e0 es' hm]
          obtain ⟨hg, hlcp⟩ := matchEdge_cons_ok_some node c rest edge cp ws (e0 :: es') hm
          have hw : c :: rest = cp ++ ws := by
            have hd := (lcp_decomp (c :: rest) edge.label).1
            rw [hlcp] at hd
            exact hd
          have ihB := insert_twice
            (RTNode.mk false (dictSet [e0] (RTNode.mk false [], e0 :: es') [])) ws
          have hlcp2 : longestCommonPref (c :: rest) cp = (cp, ws, []) := by
            rw [hw]
            exact lcp_append_left cp ws
          have hm2 : matchEdge
              (RTNode.mk node.key_node
                (dictSet [c]
                  (insert (RTNode.mk false (dictSet [e0] (RTNode.mk false [], e0 :: es') []))
                    ws, cp)
                  node.children)) (c :: rest) =
              .ok (some (insert
                  (RTNode.mk false (dictSet [e0] (RTNode.mk false [], e0 :: es') [])) ws,
                cp), cp, ws, []) := by
            simp [matchEdge, dictGet_dictSet_self, hlcp2]
          rw [insert_cons_full _ c rest
            (insert (RTNode.mk false (dictSet [e0] (RTNode.mk false [], e0 :: es') [])) ws,
              cp) cp ws hm2]
          simp only [dictSet_nil] at ihB
          simp [ihB, dictSet_dictSet]
termination_by (word.length, gW node word, sizeOf node)
decreasing_by
  · exact insert_dec_full _ _ _ _ _ _ (by assumption)
  · exact insert_dec_split _ _ _ _ _ _ _ _ (by assumption)

/-- C7: insert is idempotent: inserting the same word twice leaves exactly the
same trie state (same nodes, edges, labels and key flags) as inserting it once,
so every later search result and the key-node set are unchanged by the second
insert. -/
theorem c7_insert_idempotent (node : RTNode) (word : List Char) :
    insert (insert node word) word = insert node word :=
  insert_twice node word

theorem scT1_val : scT1 =
    RTNode.mk false [(['a'], (RTNode.mk true [], ['a','n']))] := by
  simp only [scT1]
  simp [insert, matchEdge, emptyRT]

theorem scT2_val : scT2 =
    RTNode.mk false [(['a'], (RTNode.mk true [(['d'], (RTNode.mk true [], ['d']))], ['a','n']))] := by
  simp only [scT2, scT1_val]
  simp [insert, matchEdge]

theorem scT3_val : scT3 =
    RTNode.mk false [(['a'], (RTNode.mk true [(['d'], (RTNode.mk true [], ['d'])), (['t'], (RTNode.mk true [], ['t']))], ['a','n']))] := by
  simp only [scT3, scT2_val]
  simp [insert, matchEdge]

theorem scT4_val : scT4 =
    RTNode.mk false [(['a'], (RTNode.mk true [(['d'], (RTNode.mk true [], ['d'])), (['t'], (RTNode.mk true [(['h'], (RTNode.mk true [], ['h','e','m']))], ['t']))], ['a','n']))] := by
  simp only [scT4, scT3_val]
  simp [insert, matchEdge]

theorem scT5_val : scT5 =
    RTNode.mk false [(['a'], (RTNode.mk true [(['d'], (RTNode.mk true [], ['d'])), (['t'], (RTNode.mk true [(['h'], (RTNode.mk true [], ['h','e','m'])), (['i'], (RTNode.mk true [], ['i']))], ['t']))], ['a','n']))] := by
  simp only [scT5, scT4_val]
  simp [insert, matchEdge]

theorem scT6_val : scT6 =
    RTNode.mk false [(['a'], (RTNode.mk true [(['d'], (RTNode.mk true [], ['d'])), (['t'], (RTNode.mk true [(['h'], (RTNode.mk true [], ['h','e','m'])), (['i'], (RTNode.mk true [(['d'], (RTNode.mk true [], ['d','o','t','e']))], ['i']))], ['t']))], ['a','n']))] := by
  simp only [scT6, scT5_val]
  simp [insert, matchEdge]

theorem scT7_val : scT7 =
    RTNode.mk false [(['a'], (RTNode.mk true [(['d'], (RTNode.mk true [], ['d'])), (['t'], (RTNode.mk true [(['h'], (RTNode.mk true [], ['h','e','m'])), (['i'], (RTNode.mk true [(['d'], (RTNode.mk true [], ['d','o','t','e']))], ['i'])), (['o'], (RTNode.mk true [], ['o','n','y','m']))], ['t']))], ['a','n']))] := by
  simp only [scT7, scT6_val]
  simp [insert, matchEdge]

theorem scT8_val : scT8 =
    RTNode.mk false [(['a'], (RTNode.mk true [(['d'], (RTNode.mk true [], ['d'])), (['t'], (RTNode.mk true [(['h'], (RTNode.mk true [], ['h','e','m'])), (['i'], (RTNode.mk true [(['d'], (RTNode.mk true [], ['d','o','t','e'])), (['p'], (RTNode.mk true [], ['p','a','t','h','y']))], ['i'])), (['o'], (RTNode.mk true [], ['o','n','y','m']))], ['t']))], ['a','n']))] := by
  simp only [scT8, scT7_val]
  simp [insert, matchEdge]

theorem scT9_val : scT9 =
    RTNode.mk false [(['a'], (RTNode.mk true [(['d'], (RTNode.mk true [], ['d'])), (['t'], (RTNode.mk true [(['h'], (RTNode.mk true [], ['h','e','m'])), (['i'], (RTNode.mk true [(['d'], (RTNode.mk true [], ['d','o','t','e'])), (['p'], (RTNode.mk true [], ['p','a','t','h','y']))], ['i'])), (['o'], (RTNode.mk true [], ['o','n','y','m']))], ['t'])), (['y'], (RTNode.mk true [], ['y']))], ['a','n']))] := by
  simp only [scT9, scT8_val]
  simp [insert, matchEdge]

theorem scT10_val : scT10 =
    RTNode.mk false [(['a'], (RTNode.mk true [(['d'], (RTNode.mk true [], ['d'])), (['t'], (RTNode.mk true [(['h'], (RTNode.mk true [], ['h','e','m'])), (['i'], (RTNode.mk true [(['d'], (RTNode.mk true [], ['d','o','t','e'])), (['p'], (RTNode.mk true [], ['p','a','t','h','y']))], ['i'])), (['o'], (RTNode.mk true [], ['o','n','y','m']))], ['t'])), (['y'], (RTNode.mk true [(['b'], (RTNode.mk true [], ['b','o','d','y']))], ['y']))], ['a','n']))] := by
  simp only [scT10, scT9_val]
  simp [insert, matchEdge]

theorem scT11_val : scT11 =
    RTNode.mk false [(['a'], (RTNode.mk true [(['d'], (RTNode.mk true [], ['d'])), (['t'], (RTNode.mk true [(['h'], (RTNode.mk true [], ['h','e','m'])), (['i'], (RTNode.mk true [(['d'], (RTNode.mk true [], ['d','o','t','e'])), (['p'], (RTNode.mk true [], ['p','a','t','h','y']))], ['i'])), (['o'], (RTNode.mk true [], ['o','n','y','m']))], ['t'])), (['y'], (RTNode.mk true [(['b'], (RTNode.mk true [], ['b','o','d','y'])), (['h'], (RTNode.mk true [], ['h','o','w']))], ['y']))], ['a','n']))] := by
  simp only [scT11, scT10_val]
  simp [insert, matchEdge]

theorem scT12_val : scT12 =
    RTNode.mk false [(['a'], (RTNode.mk true [(['d'], (RTNode.mk true [], ['d'])), (['t'], (RTNode.mk true [(['h'], (RTNode.mk true [], ['h','e','m'])), (['i'], (RTNode.mk true [(['d'], (RTNode.mk true [], ['d','o','t','e'])), (['p'], (RTNode.mk true [], ['p','a','t','h','y']))], ['i'])), (['o'], (RTNode.mk true [], ['o','n','y','m']))], ['t'])), (['y'], (RTNode.mk true [(['b'], (RTNode.mk true [], ['b','o','d','y'])), (['h'], (RTNode.mk true [], ['h','o','w'])), (['o'], (RTNode.mk true [], ['o','n','e']))], ['y']))], ['a','n']))] := by
  simp only [scT12, scT11_val]
  simp [insert, matchEdge]

theorem scT12_root : scT12 = scRoot := by
  rw [scT12_val]
  simp [scRoot, scAN, scTT, scI, scY]

/-- C5 counterexample: in the concrete scenario of the claim, search("ant") does
not return True: line 70 of the source looks up node.children["an"] with the
two-character common prefix, a key that does not exist, and raises a KeyError. -/
theorem c5_counterexample : search scT12 ['a','n','t'] ≠ Except.ok true := by
  have h : search scT12 ['a','n','t'] = Except.error Err.keyError := by
    rw [scT12_root]
    simp [search, matchEdge, scRoot]
  rw [h]
  exact fun hc => Except.noConfusion hc

/-- C5 as the code actually behaves: after inserting the twelve scenario words in
order, search("ant") and search("anth") both abort with the KeyError of the
children[commonPrefix] lookup, and keysWithPrefix("anti") (modelled from the spec
on top of the source's searchNodeWithPrefix) returns exactly "anti", "antidote"
and "antipathy" — "antipathy" included, contrary to the claim's two-element set. -/
theorem c5_scenario_actual :
    search scT12 ['a','n','t'] = Except.error Err.keyError ∧
    search scT12 ['a','n','t','h'] = Except.error Err.keyError ∧
    keysWithPref scT12 ['a','n','t','i'] =
      [['a','n','t','i'], ['a','n','t','i','d','o','t','e'],
       ['a','n','t','i','p','a','t','h','y']] := by
  refine ⟨?_, ?_, ?_⟩
  · rw [scT12_root]
    simp [search, matchEdge, scRoot]
  · rw [scT12_root]
    simp [search, matchEdge, scRoot]
  · rw [scT12_root]
    have h1 : searchNodeWithPref scRoot ['a','n','t','i'] =
        searchNodeWithPref scAN ['t','i'] := by
      simp [searchNodeWithPref, matchEdge, scRoot]
    have h2 : searchNodeWithPref scAN ['t','i'] = searchNodeWithPref scTT ['i'] := by
      simp [searchNodeWithPref, matchEdge, scAN]
    have h3 : searchNodeWithPref scTT ['i'] = some scI := by
      simp [searchNodeWithPref, matchEdge, scTT]
    have h4 : collectKeys scI ['a','n','t','i'] =
        [['a','n','t','i'], ['a','n','t','i','d','o','t','e'],
         ['a','n','t','i','p','a','t','h','y']] := by
      simp [collectKeys, collectKeysList, scI]
    rw [keysWithPref, h1, h2, h3]
    exact h4

end RadixTrie